import Mathlib

/-!
# Verification of the BookByte text-ingestion core

Shallow embedding of `backend/app/core/services.py` (`OpenAIService`): the
chunker `_chunk_book_text`, the per-chunk response recovery in
`_process_single_chunk`, and the orchestration loop `process_book_text`.

Strings are modelled as `List Char`.  The LLM backend is an abstract function
from the rendered prompt to either a completion or a transport error, mirroring
the `self.client.chat.completions.create` call boundary.  Python's `json.loads`
is modelled by a strict recursive-descent parser over characters, and the three
`re.search` extractions are modelled by functions computing exactly the
leftmost match (with lazy/greedy quantifier semantics resolved by hand, as
argued in the comments at each definition).
-/

namespace BookByte

/-- A parsed JSON value, as produced by Python's `json.loads`.  Numbers keep
their source lexeme (the claims never compare numeric values, only need
Python truthiness, which `numIsZero` below computes from the lexeme);
`json.loads`'s non-standard `NaN`/`Infinity`/`-Infinity` literals are kept as
`num` lexemes as well.  Objects keep every key/value pair in source order;
Python's dict collapses duplicate keys keeping the last value, which
`dictGet` below reproduces. -/
inductive Json where
  | null
  | bool (b : Bool)
  | num (lex : List Char)
  | str (s : List Char)
  | arr (elems : List Json)
  | obj (fields : List (List Char × Json))

/-- The JSON insignificant whitespace characters accepted by `json.loads`. -/
def jsonWs (c : Char) : Bool :=
  c = ' ' || c = '\t' || c = '\n' || c = '\r'

/-- Drop leading JSON whitespace. -/
def skipWsJ (l : List Char) : List Char := l.dropWhile jsonWs

/-- Value of one hexadecimal digit. -/
def hexVal (ch : Char) : Option Nat :=
  if '0' ≤ ch ∧ ch ≤ '9' then some (ch.toNat - '0'.toNat)
  else if 'a' ≤ ch ∧ ch ≤ 'f' then some (ch.toNat - 'a'.toNat + 10)
  else if 'A' ≤ ch ∧ ch ≤ 'F' then some (ch.toNat - 'A'.toNat + 10)
  else none

/-- Decode the body of a JSON string after its opening quote, returning the
decoded content and the input remaining after the closing quote.  Mirrors the
strict (default) string scanning of `json.loads`: the escapes
`\" \\ \/ \b \f \n \r \t \uXXXX` are decoded, an unescaped control character
below U+0020 is an error, and a `\uXXXX` surrogate pair is combined into one
character.  A lone surrogate escape, which Python would keep as an unpaired
surrogate code unit, has no `Char` counterpart and is rejected here; no text
the claims evaluate contains one. -/
def parseStringBody : List Char → Option (List Char × List Char)
  | [] => none
  | '"' :: rest => some ([], rest)
  | '\\' :: rest =>
    match rest with
    | '"' :: r => (parseStringBody r).map fun p => ('"' :: p.1, p.2)
    | '\\' :: r => (parseStringBody r).map fun p => ('\\' :: p.1, p.2)
    | '/' :: r => (parseStringBody r).map fun p => ('/' :: p.1, p.2)
    | 'b' :: r => (parseStringBody r).map fun p => ('\x08' :: p.1, p.2)
    | 'f' :: r => (parseStringBody r).map fun p => ('\x0c' :: p.1, p.2)
    | 'n' :: r => (parseStringBody r).map fun p => ('\n' :: p.1, p.2)
    | 'r' :: r => (parseStringBody r).map fun p => ('\r' :: p.1, p.2)
    | 't' :: r => (parseStringBody r).map fun p => ('\t' :: p.1, p.2)
    | 'u' :: h1 :: h2 :: h3 :: h4 :: r =>
      match hexVal h1, hexVal h2, hexVal h3, hexVal h4 with
      | some v1, some v2, some v3, some v4 =>
        let n := ((v1 * 16 + v2) * 16 + v3) * 16 + v4
        if 0xD800 ≤ n ∧ n < 0xDC00 then
          match r with
          | '\\' :: 'u' :: g1 :: g2 :: g3 :: g4 :: r2 =>
            match hexVal g1, hexVal g2, hexVal g3, hexVal g4 with
            | some w1, some w2, some w3, some w4 =>
              let m := ((w1 * 16 + w2) * 16 + w3) * 16 + w4
              if 0xDC00 ≤ m ∧ m < 0xE000 then
                (parseStringBody r2).map fun p =>
                  (Char.ofNat (0x10000 + (n - 0xD800) * 0x400 + (m - 0xDC00)) :: p.1, p.2)
              else none
            | _, _, _, _ => none
          | _ => none
        else if 0xDC00 ≤ n ∧ n < 0xE000 then none
        else (parseStringBody r).map fun p => (Char.ofNat n :: p.1, p.2)
      | _, _, _, _ => none
    | _ => none
  | c :: rest =>
    if c.toNat < 0x20 then none
    else (parseStringBody rest).map fun p => (c :: p.1, p.2)

/-- Maximal leading run of decimal digits, and the rest. -/
def digitRun (l : List Char) : List Char × List Char :=
  (l.takeWhile Char.isDigit, l.dropWhile Char.isDigit)

/-- Optional fraction part of a JSON number lexeme: consumed only when a `.`
is followed by at least one digit, exactly as the `(\.\d+)?` group of
Python's number regex (maximal munch, optional on failure). -/
def numFracPart : List Char → List Char × List Char
  | '.' :: r =>
    let (ds, r2) := digitRun r
    if ds.isEmpty then ([], '.' :: r) else ('.' :: ds, r2)
  | l => ([], l)

/-- Optional exponent part, as the `([eE][-+]?\d+)?` group of Python's number
regex: consumed only when the digits are present. -/
def numExpPart : List Char → List Char × List Char
  | [] => ([], [])
  | e :: r =>
    if e = 'e' ∨ e = 'E' then
      let (sg, r1) :=
        match r with
        | '+' :: r2 => ((['+'] : List Char), r2)
        | '-' :: r2 => ((['-'] : List Char), r2)
        | _ => (([] : List Char), r)
      let (ds, r2) := digitRun r1
      if ds.isEmpty then ([], e :: r) else (e :: (sg ++ ds), r2)
    else ([], e :: r)

/-- A JSON number lexeme by maximal munch, per Python's
`-?(0|[1-9]\d*)(\.\d+)?([eE][-+]?\d+)?` scanner regex: the lexeme and the rest
of the input.  Like the regex, a leading `0` is not followed by more integer
digits (any following digit is left in the rest, to fail in context). -/
def parseNumber (l : List Char) : Option (List Char × List Char) :=
  let (sgn, l1) :=
    match l with
    | '-' :: r => ((['-'] : List Char), r)
    | _ => (([] : List Char), l)
  match l1 with
  | '0' :: r =>
    let (f, r1) := numFracPart r
    let (x, r2) := numExpPart r1
    some (sgn ++ '0' :: (f ++ x), r2)
  | ch :: r =>
    if ch.isDigit then
      let (ds, r0) := digitRun (ch :: r)
      let (f, r1) := numFracPart r0
      let (x, r2) := numExpPart r1
      some (sgn ++ ds ++ f ++ x, r2)
    else none
  | [] => none

/-- Element loop of a non-empty JSON array, after the first element position:
parse a value (`pv`), skip whitespace, then either `,` and recurse or `]` and
finish.  `pv` is the value parser at the enclosing nesting budget. -/
def parseArrLoop (pv : List Char → Option (Json × List Char)) :
    Nat → List Char → List Json → Option (Json × List Char)
  | 0, _, _ => none
  | fuel + 1, l, acc =>
    match pv (skipWsJ l) with
    | none => none
    | some (v, r) =>
      match skipWsJ r with
      | ',' :: r2 => parseArrLoop pv fuel r2 (acc ++ [v])
      | ']' :: r2 => some (.arr (acc ++ [v]), r2)
      | _ => none

/-- Member loop of a non-empty JSON object, positioned at a key (whitespace
already skipped): a quoted key, `:`, a value, then `,` (and recurse, skipping
whitespace to the next key) or `}`. -/
def parseObjLoop (pv : List Char → Option (Json × List Char)) :
    Nat → List Char → List (List Char × Json) → Option (Json × List Char)
  | 0, _, _ => none
  | fuel + 1, l, acc =>
    match l with
    | '"' :: r =>
      match parseStringBody r with
      | none => none
      | some (k, r1) =>
        match skipWsJ r1 with
        | ':' :: r2 =>
          match pv (skipWsJ r2) with
          | none => none
          | some (v, r3) =>
            match skipWsJ r3 with
            | ',' :: r4 => parseObjLoop pv fuel (skipWsJ r4) (acc ++ [(k, v)])
            | '}' :: r4 => some (.obj (acc ++ [(k, v)]), r4)
            | _ => none
        | _ => none
    | _ => none

/-- One JSON value at the head of the input (no leading whitespace), as
`json.loads` scans it: literals (including the non-standard
`NaN`/`Infinity`/`-Infinity` accepted by default), strings, arrays, objects,
numbers.  `fuel` bounds nesting; every nesting level consumes at least the
opening bracket, so `length + 2` fuel at top level never runs out. -/
def parseValue : Nat → List Char → Option (Json × List Char)
  | 0, _ => none
  | fuel + 1, l =>
    match l with
    | 'n' :: 'u' :: 'l' :: 'l' :: r => some (.null, r)
    | 't' :: 'r' :: 'u' :: 'e' :: r => some (.bool true, r)
    | 'f' :: 'a' :: 'l' :: 's' :: 'e' :: r => some (.bool false, r)
    | 'N' :: 'a' :: 'N' :: r => some (.num ("NaN".data), r)
    | 'I' :: 'n' :: 'f' :: 'i' :: 'n' :: 'i' :: 't' :: 'y' :: r =>
      some (.num ("Infinity".data), r)
    | '-' :: 'I' :: 'n' :: 'f' :: 'i' :: 'n' :: 'i' :: 't' :: 'y' :: r =>
      some (.num ("-Infinity".data), r)
    | '"' :: r => (parseStringBody r).map fun p => (.str p.1, p.2)
    | '[' :: r =>
      match skipWsJ r with
      | ']' :: r2 => some (.arr [], r2)
      | r3 => parseArrLoop (parseValue fuel) fuel r3 []
    | '{' :: r =>
      match skipWsJ r with
      | '}' :: r2 => some (.obj [], r2)
      | r3 => parseObjLoop (parseValue fuel) fuel r3 []
    | _ => (parseNumber l).map fun p => (.num p.1, p.2)

/-- Model of `json.loads` on a whole text: skip whitespace, parse one value,
and require only whitespace to remain (`Extra data` otherwise).  `none` is a
`JSONDecodeError`. -/
def jsonLoads (t : List Char) : Option Json :=
  match parseValue (t.length + 2) (skipWsJ t) with
  | some (j, r) => if (skipWsJ r).isEmpty then some j else none
  | none => none

/-! ## Python value semantics used by the source -/

/-- Whether a number lexeme denotes zero (`0`, `-0.000`, `0e7`, ...): every
digit of the mantissa (before any exponent marker) is `0`, and there is at
least one digit — so `NaN`/`Infinity` lexemes, having no mantissa digits, are
not zero.  Used for Python truthiness of numbers. -/
def numIsZero (lex : List Char) : Bool :=
  let mant := lex.takeWhile fun c => c ≠ 'e' ∧ c ≠ 'E'
  let ds := mant.filter Char.isDigit
  !ds.isEmpty && ds.all (· = '0')

/-- Python truthiness of a parsed JSON value: `None`, `False`, zero numbers,
and empty strings/lists/dicts are falsy.  (A dict with only duplicate keys
still has at least one key, so list-of-pairs emptiness agrees with dict
emptiness.) -/
def pyTruthy : Json → Bool
  | .null => false
  | .bool b => b
  | .num lex => !numIsZero lex
  | .str s => !s.isEmpty
  | .arr xs => !xs.isEmpty
  | .obj fs => !fs.isEmpty

/-- Model of `dict.get` on the fields of a parsed object: Python's dict keeps the last
value bound to a duplicated key, so the rightmost matching pair wins. -/
def dictGet (fs : List (List Char × Json)) (k : List Char) : Option Json :=
  fs.foldl (fun acc p => if p.1 = k then some p.2 else acc) none

/-- Python `needle in hay` substring containment. -/
def containsSub (needle : List Char) : List Char → Bool
  | [] => needle.isEmpty
  | hay@(_ :: t) => needle.isPrefixOf hay || containsSub needle t

/-! ## Error taxonomy

Every failure in `_process_single_chunk` is a plain Python `Exception`; the
outer handler (line 214) re-raises it wrapped with the failing sub-chunk's
position, preserving which family of message it carries.  These constructors
name the message families of the source (and of the spec's error taxonomy):
`configError` for the missing-API-key `ValueError`, `backendError` for the
wrapped API-call failure, `emptyResponse` for the empty-completion error,
`noJsonFound` for "Could not extract JSON ..." (raised only on empty text,
hence unreachable there), `invalidFormat` for "Invalid response format ...",
and `attributeError` for the `AttributeError` a truthy non-dict parse result
raises at `parsed_response.get` (also caught and wrapped by line 214). -/
inductive PyErr where
  | configError
  | backendError
  | emptyResponse
  | noJsonFound
  | invalidFormat
  | attributeError
deriving DecidableEq

/-- The final validation of a successful parse (source line 209):
`not parsed_response or not parsed_response.get('paragraphs') or not
isinstance(parsed_response['paragraphs'], list)` raises "Invalid response
format", otherwise `parsed_response['paragraphs']` is returned.  Short-circuit
evaluation order: a falsy parse result fails first; a truthy non-dict raises
`AttributeError` at `.get`; a missing or falsy `paragraphs` value fails; a
truthy non-list `paragraphs` fails; element types are never inspected. -/
def finalCheck (j : Json) : Except PyErr (List Json) :=
  if pyTruthy j then
    match j with
    | .obj fs =>
      match dictGet fs ("paragraphs".data) with
      | none => .error .invalidFormat
      | some v =>
        if pyTruthy v then
          match v with
          | .arr xs => .ok xs
          | _ => .error .invalidFormat
        else .error .invalidFormat
    | _ => .error .attributeError
  else .error .invalidFormat

/-! ## The three `re.search` extractions

Python's `re` module returns the match with the leftmost start; at a given
start, greedy pieces take the most and lazy pieces the least the rest of the
pattern allows.  Each function below computes that unique match directly; the
doc comments record why the simplification is exact. -/

/-- Whitespace for the regex class `\s`.  (Python's `\s` on `str` further
matches some Unicode whitespace; all completion texts the claims evaluate are
ASCII.) -/
def regexWs (c : Char) : Bool :=
  c = ' ' || c = '\t' || c = '\n' || c = '\r' || c = '\x0b' || c = '\x0c'

/-- Strip leading and trailing `\s` runs. -/
def trimWsBoth (l : List Char) : List Char :=
  ((l.dropWhile regexWs).reverse.dropWhile regexWs).reverse

/-- The input after the first occurrence of `needle`, if any. -/
def splitAfterFirst (needle : List Char) : List Char → Option (List Char)
  | [] => if needle.isEmpty then some [] else none
  | hay@(_ :: t) =>
    if needle.isPrefixOf hay then some (hay.drop needle.length)
    else splitAfterFirst needle t

/-- The input before the first occurrence of `needle`, if any. -/
def takeUntilSub (needle : List Char) : List Char → Option (List Char)
  | [] => if needle.isEmpty then some [] else none
  | hay@(c :: t) =>
    if needle.isPrefixOf hay then some []
    else (takeUntilSub needle t).map (c :: ·)

/-- Group 1 of `re.search(r'OPEN\s*([\s\S]*?)\s*BACKTICKS', text)` where `OPEN`
is the opening fence marker: everything from after the first occurrence of the
marker up to the first following closing fence, with `\s` runs trimmed at both
ends.  Exactness: the pattern must start at an occurrence of the marker, and
if the first occurrence has no closing fence after it, no later one can
either (a later occurrence of either marker itself contains the three
backticks); at that start, backtracking over greedy-`\s*`, lazy group,
greedy-`\s*` resolves to: end at the first closing fence, group = the span
between, whitespace-trimmed — any shorter group end would leave a non-space,
non-fence character for the trailing `\s*`. -/
def fenceInner (marker : List Char) (t : List Char) : Option (List Char) :=
  match splitAfterFirst marker t with
  | none => none
  | some rest =>
    match takeUntilSub ("```".data) rest with
    | none => none
    | some inner => some (trimWsBoth inner)

/-- Lines 159–171 of the source: when the direct parse failed, if the text
contains a fence opened with three backticks and `json`, re-target the later
stages at that block's inner content; otherwise if it contains any fence, use
that block; in either branch, when `re.search` finds no complete block,
`json_text` keeps the whole text. -/
def fenceCandidate (t : List Char) : List Char :=
  if containsSub ("```json".data) t then
    match fenceInner ("```json".data) t with
    | some inner => inner
    | none => t
  else if containsSub ("```".data) t then
    match fenceInner ("```".data) t with
    | some inner => inner
    | none => t
  else t

/-- After a candidate `]`, the pattern `\s*\}` can only close at the first
non-`\s` character, which must be `}`: the number of characters consumed
(whitespace run plus the brace), or `none`. -/
def wsThenBrace (l : List Char) : Option Nat :=
  let l2 := l.dropWhile regexWs
  match l2 with
  | '}' :: _ => some (l.length - l2.length + 1)
  | _ => none

/-- The lazy tail `[\s\S]*?\]\s*\}` of the paragraphs pattern, scanning from
just after the `[`: the lazy group grows one character at a time, so the
match closes at the first `]` that is followed by whitespace and then `}`;
earlier `]`s failing that test are absorbed into the group.  Returns how many
characters the tail consumed (through the closing `}`). -/
def closeScan : List Char → Option Nat
  | [] => none
  | ']' :: rest =>
    match wsThenBrace rest with
    | some k => some (k + 1)
    | none => (closeScan rest).map (· + 1)
  | _ :: rest => (closeScan rest).map (· + 1)

/-- The literal `"paragraphs"` including its quotes. -/
def paraKey : List Char := "\"paragraphs\"".data

/-- A match of `\{\s*"paragraphs"\s*:\s*\[[\s\S]*?\]\s*\}` anchored at the
start of `l`, as group 0 (the matched substring).  Each greedy `\s*` is
followed by a non-whitespace literal, so it can only stop at the end of the
maximal whitespace run; the lazy tail is `closeScan`. -/
def matchParaAt (l : List Char) : Option (List Char) :=
  match l with
  | '{' :: r =>
    let ws1 := r.takeWhile regexWs
    let r1 := r.dropWhile regexWs
    if paraKey.isPrefixOf r1 then
      let r2 := r1.drop paraKey.length
      let ws2 := r2.takeWhile regexWs
      match r2.dropWhile regexWs with
      | ':' :: r4 =>
        let ws3 := r4.takeWhile regexWs
        match r4.dropWhile regexWs with
        | '[' :: r6 =>
          match closeScan r6 with
          | some k =>
            some ('{' :: (ws1 ++ paraKey ++ ws2 ++ ':' :: (ws3 ++ '[' :: r6.take k)))
          | none => none
        | _ => none
      | _ => none
    else none
  | _ => none

/-- Model of `re.search` for the paragraphs pattern (line 177): the match at the
leftmost start that admits one. -/
def searchPara : List Char → Option (List Char)
  | [] => none
  | l@(_ :: t) =>
    match matchParaAt l with
    | some m => some m
    | none => searchPara t

/-- Model of the fallback search of line 181, regex opening brace, `[\s\S]*`, closing brace: the leftmost `{` that
has some `}` after it starts the match, and the greedy `[\s\S]*` runs to the
last `}` of the whole text.  If the first `{` has no later `}`, no `{` has. -/
def searchAnyObj (t : List Char) : Option (List Char) :=
  match t.dropWhile (fun c => c ≠ '{') with
  | '{' :: r =>
    let rr := r.reverse.dropWhile (fun c => c ≠ '}')
    if rr.isEmpty then none else some ('{' :: rr.reverse)
  | _ => none

/-- Lines 195–198: append the missing `]`s (from the original count
difference), then the missing `}`s (counted on the already-extended string;
appending `]` does not change the brace counts). -/
def bracketRepair (s : List Char) : List Char :=
  let s1 :=
    if s.count ']' < s.count '[' then s ++ List.replicate (s.count '[' - s.count ']') ']'
    else s
  if s1.count '}' < s1.count '{' then s1 ++ List.replicate (s1.count '{' - s1.count '}') '}'
  else s1

/-! ## The Response Recoverer (`_process_single_chunk`, lines 129–212) -/

/-- The gate of line 142: `'{' not in text_content or 'paragraphs' not in
text_content` — the response is treated as carrying no extractable
paragraphs when the text lacks a `{` character or lacks the substring
`paragraphs`. -/
def gateNoParagraphs (t : List Char) : Bool :=
  !t.contains '{' || !containsSub ("paragraphs".data) t

/-- The candidate substring the extraction stages (lines 157–181) produce
when the direct parse failed: on the (possibly fence-stripped) text, the
paragraphs-shaped pattern first, then the broadest brace span. -/
def extractCandidate (t : List Char) : Option (List Char) :=
  match searchPara (fenceCandidate t) with
  | some m => some m
  | none => searchAnyObj (fenceCandidate t)

/-- Turn one raw completion text into a paragraph list, exactly as lines
129–212 of the source: empty-text error; the line-142 gate; direct
`json.loads`; on `JSONDecodeError`, fence extraction, the two pattern
searches, the no-candidate benign return, bracket repair, the reparse with
benign degradation; and the final format validation applied to whichever
parse succeeded. -/
def recoverParagraphs (t : List Char) : Except PyErr (List Json) :=
  if t.isEmpty then .error .emptyResponse
  else if gateNoParagraphs t then .ok []
  else
    match jsonLoads t with
    | some j => finalCheck j
    | none =>
      match extractCandidate t with
      | none =>
        -- line 187: a non-empty unparseable text is non-narrative content
        if t.isEmpty then .error .noJsonFound else .ok []
      | some cand =>
        match jsonLoads (bracketRepair cand) with
        | some j => finalCheck j
        | none => .ok []

/-- The parse result that reaches the final validation of line 209, when one
does: the whole completion text if it parses directly, and otherwise the
bracket-repaired extracted candidate if that reparse succeeds (lines
150–207 set `parsed_response` in exactly these two ways before falling
through to line 209; in every other case the recovery returned early). -/
def finalParse (t : List Char) : Option Json :=
  match jsonLoads t with
  | some j => some j
  | none =>
    match extractCandidate t with
    | none => none
    | some cand => jsonLoads (bracketRepair cand)

/-! ## Prompt Builder and LLM call boundary -/

/-- The fixed instruction template of lines 78–107, up to the rendered
sub-chunk position.  (`\x7b`/`\x7d` are the literal braces written `{{`/`}}`
in the Python f-string.) -/
def promptTemplate : List Char :=
  ("You are a text processing assistant. Analyze the following book text and extract all paragraphs.\n\n"
    ++ "CRITICAL REQUIREMENTS - FOLLOW EXACTLY:\n"
    ++ "1. Each paragraph MUST be between 3-7 sentences (NO MORE, NO LESS)\n"
    ++ "2. NEVER create single-word or single-sentence paragraphs\n"
    ++ "3. NEVER create paragraphs longer than 7 sentences\n"
    ++ "4. Count sentences carefully - a sentence ends with . ! or ?\n"
    ++ "5. If dialogue is short, combine multiple exchanges into one paragraph (up to 7 sentences)\n"
    ++ "6. Preserve the original text exactly (no summarization or modification)\n"
    ++ "7. Skip empty lines, page numbers, headers, footers, chapter titles\n"
    ++ "8. Do NOT include table of contents, index, or chapter listings\n"
    ++ "9. Skip prefaces and forewords if not part of main narrative\n"
    ++ "10. Split very long paragraphs into multiple smaller ones (3-7 sentences each)\n\n"
    ++ "PARAGRAPH SIZE RULES:\n"
    ++ "- Minimum: 3 sentences\n"
    ++ "- Maximum: 7 sentences\n"
    ++ "- Target: 4-6 sentences per paragraph\n"
    ++ "- If original paragraph is 15 sentences, split it into 3 paragraphs of 5 sentences each\n\n"
    ++ "Return ONLY a valid JSON object in this exact format with no additional text:\n"
    ++ "\x7b\n  \"paragraphs\": [\n    \"First paragraph text here...\",\n    \"Second paragraph text here...\"\n  ]\n\x7d\n\n"
    ++ "Book text (Chunk ").data

/-- The rendered prompt for one sub-chunk: the fixed template, the position
`sub_index/sub_total`, and the chunk content verbatim at the end. -/
def buildPrompt (subIndex subTotal : Nat) (bookText : List Char) : List Char :=
  promptTemplate ++ (toString subIndex).data ++ "/".data ++ (toString subTotal).data
    ++ "):\n".data ++ bookText

/-- What one backend call returns: the completion text (`message.content or
""`) and the finish signal (`"stop"` or `"length"`; the source only logs
it — processing always continues with the text). -/
structure Completion where
  text : List Char
  finishReason : String

/-- One sub-chunk processed end to end (`_process_single_chunk`): render the
prompt, call the backend (a transport failure becomes the wrapped
`backendError`), and recover paragraphs from the completion text.
`chunkIndex`/`totalChunks` are accepted, as in the source, and used by
nothing in the body. -/
def processSingleChunk (backend : List Char → Except String Completion)
    (bookText : List Char) (chunkIndex totalChunks subIndex subTotal : Nat) :
    Except PyErr (List Json) :=
  match backend (buildPrompt subIndex subTotal bookText) with
  | .error _ => .error .backendError
  | .ok comp => recoverParagraphs comp.text

/-! ## Chunker (`_chunk_book_text`, lines 64–72) -/

/-- The sliding-window loop, structurally recursive on a fuel that the callers
instantiate with the text length (enough whenever `chunkSize ≥ 1`, since each
turn drops at least one character).  With `chunkSize = 0` the source loop
would not terminate; the claims only concern positive sizes, and the fixed
size used by `process_book_text` is 100000. -/
def chunkGo : Nat → List Char → Nat → List (List Char)
  | _, [], _ => []
  | 0, _, _ => []
  | fuel + 1, text, chunkSize =>
    text.take chunkSize :: chunkGo fuel (text.drop chunkSize) chunkSize

/-- Model of `_chunk_book_text`: non-overlapping windows of `chunkSize` characters from
offset 0; the last window is whatever remains. -/
def chunkBookText (text : List Char) (chunkSize : Nat) : List (List Char) :=
  chunkGo text.length text chunkSize

/-! ## Chunk Orchestrator (`process_book_text`, lines 15–51) -/

/-- The aggregate the orchestrator returns:
`{'status': 'success', 'paragraphs': ..., 'total_paragraphs': ...}`. -/
structure AggregateResult where
  status : String
  paragraphs : List Json
  total_paragraphs : Nat

/-- The sequential sub-chunk loop (lines 33–45): `enumerate(text_chunks, 1)`
drives `start` from 1; each recovered list is appended in order; the first
raised error aborts the rest. -/
def processChunksFrom (backend : List Char → Except String Completion)
    (ci tc subTotal : Nat) : Nat → List (List Char) → Except PyErr (List Json)
  | _, [] => .ok []
  | start, c :: rest =>
    match processSingleChunk backend c ci tc start subTotal with
    | .error e => .error e
    | .ok ps =>
      match processChunksFrom backend ci tc subTotal (start + 1) rest with
      | .error e => .error e
      | .ok more => .ok (ps ++ more)

/-- Model of `process_book_text`: the defensive API-key re-check (line 21), the fixed
100000-character chunking, the sequential loop, and the aggregate. -/
def processBookText (apiKey : List Char) (backend : List Char → Except String Completion)
    (bookText : List Char) (chunkIndex totalChunks : Nat) :
    Except PyErr AggregateResult :=
  if apiKey.isEmpty then .error .configError
  else
    let chunks := chunkBookText bookText 100000
    match processChunksFrom backend chunkIndex totalChunks chunks.length 1 chunks with
    | .error e => .error e
    | .ok ps => .ok ⟨"success", ps, ps.length⟩

/-- Instrumentation of the same loop, recording the prompt of every backend
invocation it performs: each turn invokes the backend exactly once (inside
`_process_single_chunk`), and a raised error stops the loop after the failing
call. -/
def promptsSent (backend : List Char → Except String Completion)
    (ci tc subTotal : Nat) : Nat → List (List Char) → List (List Char)
  | _, [] => []
  | start, c :: rest =>
    match processSingleChunk backend c ci tc start subTotal with
    | .error _ => [buildPrompt start subTotal c]
    | .ok _ => buildPrompt start subTotal c :: promptsSent backend ci tc subTotal (start + 1) rest

/-- The prompts `process_book_text` sends to the backend over one submission
(none when the API-key re-check fails first). -/
def backendCalls (apiKey : List Char) (backend : List Char → Except String Completion)
    (bookText : List Char) (chunkIndex totalChunks : Nat) : List (List Char) :=
  if apiKey.isEmpty then []
  else
    let chunks := chunkBookText bookText 100000
    promptsSent backend chunkIndex totalChunks chunks.length 1 chunks

/-- The prompts that would be rendered for a run of consecutive sub-chunks
starting at position `start` (statement-side vocabulary for the fail-fast
claim). -/
def promptsFor (subTotal : Nat) : Nat → List (List Char) → List (List Char)
  | _, [] => []
  | start, c :: rest => buildPrompt start subTotal c :: promptsFor subTotal (start + 1) rest

/-! # Theorems -/

/-! ## Chunker lemmas -/

theorem chunkGo_nil (fuel n : Nat) : chunkGo fuel [] n = [] := by
  cases fuel <;> rfl

theorem chunkGo_flatten (fuel : Nat) :
    ∀ (text : List Char) (n : Nat), text.length ≤ fuel → 0 < n →
      (chunkGo fuel text n).flatten = text := by
  induction fuel with
  | zero =>
    intro text n hlen _
    cases text with
    | nil => rfl
    | cons c cs => simp at hlen
  | succ f ih =>
    intro text n hlen hn
    cases text with
    | nil => rfl
    | cons c cs =>
      have hd : (List.drop n (c :: cs)).length ≤ f := by
        simp only [List.length_drop, List.length_cons] at *
        omega
      calc (chunkGo (f + 1) (c :: cs) n).flatten
          = List.take n (c :: cs) ++ (chunkGo f (List.drop n (c :: cs)) n).flatten := by
            simp [chunkGo]
        _ = List.take n (c :: cs) ++ List.drop n (c :: cs) := by rw [ih _ n hd hn]
        _ = c :: cs := List.take_append_drop n (c :: cs)

theorem chunkGo_ne_nil (fuel : Nat) (text : List Char) (n : Nat)
    (h : text ≠ []) (hlen : text.length ≤ fuel) : chunkGo fuel text n ≠ [] := by
  cases text with
  | nil => exact absurd rfl h
  | cons c cs =>
    cases fuel with
    | zero => simp at hlen
    | succ f => simp [chunkGo]

theorem chunkGo_dropLast (fuel : Nat) :
    ∀ (text : List Char) (n : Nat), text.length ≤ fuel → 0 < n →
      ∀ c ∈ (chunkGo fuel text n).dropLast, c.length = n := by
  induction fuel with
  | zero =>
    intro text n hlen _
    cases text with
    | nil => simp [chunkGo]
    | cons x xs => simp at hlen
  | succ f ih =>
    intro text n hlen hn
    cases text with
    | nil => simp [chunkGo]
    | cons x xs =>
      have hstep : chunkGo (f + 1) (x :: xs) n
          = List.take n (x :: xs) :: chunkGo f (List.drop n (x :: xs)) n := by
        simp [chunkGo]
      rw [hstep]
      rcases hrest : chunkGo f (List.drop n (x :: xs)) n with _ | ⟨y, ys⟩
      · simp
      · intro c hc
        rw [List.dropLast_cons₂] at hc
        rcases List.mem_cons.mp hc with hc1 | hc2
        · subst hc1
          have hd : List.drop n (x :: xs) ≠ [] := by
            intro hd0
            rw [hd0, chunkGo_nil] at hrest
            exact List.noConfusion hrest
          have hlt : n < (x :: xs).length := by
            by_contra hle
            exact hd (List.drop_eq_nil_of_le (by omega))
          rw [List.length_take]
          omega
        · have hdlen : (List.drop n (x :: xs)).length ≤ f := by
            simp only [List.length_drop, List.length_cons] at *
            omega
          have := ih (List.drop n (x :: xs)) n hdlen hn
          rw [hrest] at this
          exact this c hc2

theorem chunkGo_getLast (fuel : Nat) :
    ∀ (text : List Char) (n : Nat), text.length ≤ fuel → 0 < n → text ≠ [] →
      ∀ hne : chunkGo fuel text n ≠ [],
        ((chunkGo fuel text n).getLast hne).length =
          if text.length % n = 0 then n else text.length % n := by
  induction fuel with
  | zero =>
    intro text n hlen _ hts _
    cases text with
    | nil => exact absurd rfl hts
    | cons x xs => simp at hlen
  | succ f ih =>
    intro text n hlen hn hts hne
    cases text with
    | nil => exact absurd rfl hts
    | cons x xs =>
      have hstep : chunkGo (f + 1) (x :: xs) n
          = List.take n (x :: xs) :: chunkGo f (List.drop n (x :: xs)) n := by
        simp [chunkGo]
      by_cases hd : List.drop n (x :: xs) = []
      · have hle : (x :: xs).length ≤ n := by
          by_contra hgt
          have : List.drop n (x :: xs) ≠ [] := by
            apply List.ne_nil_of_length_pos
            rw [List.length_drop]
            omega
          exact this hd
        have hsingle : chunkGo (f + 1) (x :: xs) n = [List.take n (x :: xs)] := by
          rw [hstep, hd, chunkGo_nil]
        have hlast : ((chunkGo (f + 1) (x :: xs) n).getLast hne) = List.take n (x :: xs) := by
          have := List.getLast_congr hne (by simp : ([List.take n (x :: xs)] : List (List Char)) ≠ []) hsingle
          rw [this, List.getLast_singleton]
        rw [hlast, List.length_take]
        have hpos : 0 < (x :: xs).length := by simp
        rcases Nat.lt_or_ge (x :: xs).length n with hlt | hge
        · rw [Nat.mod_eq_of_lt hlt, if_neg (by omega)]
          omega
        · have heq : (x :: xs).length = n := by omega
          rw [heq, Nat.mod_self, if_pos rfl]
          omega
      · have hdlen : (List.drop n (x :: xs)).length ≤ f := by
          simp only [List.length_drop, List.length_cons] at *
          omega
        have hrne : chunkGo f (List.drop n (x :: xs)) n ≠ [] :=
          chunkGo_ne_nil f _ n hd hdlen
        have hlast : ((chunkGo (f + 1) (x :: xs) n).getLast hne)
            = (chunkGo f (List.drop n (x :: xs)) n).getLast hrne := by
          rw [List.getLast_congr hne (List.cons_ne_nil _ _) hstep]
          exact List.getLast_cons hrne
        rw [hlast, ih (List.drop n (x :: xs)) n hdlen hn hd hrne]
        have hnle : n ≤ (x :: xs).length := by
          by_contra hgt
          exact hd (List.drop_eq_nil_of_le (by omega))
        rw [List.length_drop, ← Nat.mod_eq_sub_mod hnle]

/-- C5: for every string `s` and positive `chunk_size`, concatenating the
Chunker's output for `(s, chunk_size)` in order reconstructs `s` exactly. -/
theorem chunker_concat_reconstructs (s : List Char) (n : Nat) (hn : 0 < n) :
    (chunkBookText s n).flatten = s :=
  chunkGo_flatten s.length s n le_rfl hn

theorem chunker_concat_reconstructs_witness :
    (chunkBookText ("abcde".data) 2).flatten = "abcde".data :=
  chunker_concat_reconstructs ("abcde".data) 2 (by decide)

/-- C6: every chunk except possibly the last has length exactly `chunk_size`;
the empty string yields zero chunks; and a non-empty string yields a non-empty
chunk list whose last chunk has length `len(s) mod chunk_size`, or
`chunk_size` when the length is a (positive) multiple of `chunk_size`. -/
theorem chunker_chunk_lengths (s : List Char) (n : Nat) (hn : 0 < n) :
    (∀ c ∈ (chunkBookText s n).dropLast, c.length = n) ∧
    (s = [] → chunkBookText s n = []) ∧
    (s ≠ [] → ∃ hne : chunkBookText s n ≠ [],
      ((chunkBookText s n).getLast hne).length =
        if s.length % n = 0 then n else s.length % n) := by
  refine ⟨chunkGo_dropLast s.length s n le_rfl hn, ?_, ?_⟩
  · intro hs; subst hs; rfl
  · intro hs
    refine ⟨chunkGo_ne_nil s.length s n hs le_rfl, ?_⟩
    exact chunkGo_getLast s.length s n le_rfl hn hs _

theorem chunker_chunk_lengths_witness :
    ((chunkBookText ("abcde".data) 2).getLast (by decide)).length =
      if ("abcde".data).length % 2 = 0 then 2 else ("abcde".data).length % 2 := by
  obtain ⟨hne, he⟩ := (chunker_chunk_lengths ("abcde".data) 2 (by decide)).2.2 (by decide)
  exact he

/-! ## Response Recoverer: the narrative-content gate (C1) -/

/-- C1 counterexample: the completion text `{"a": 1}` is non-empty and
contains a `{` character, yet the gate fires and the recoverer returns the
empty list — whereas, had recovery proceeded to the direct-parse stage as the
claim asserts, the text parses as an object without a `paragraphs` field and
the final validation would have raised `InvalidFormatError` instead. -/
theorem narrative_gate_fires_on_brace_without_paragraphs :
    ("\x7b\"a\": 1\x7d".data).isEmpty = false ∧
    ("\x7b\"a\": 1\x7d".data).contains '{' = true ∧
    recoverParagraphs ("\x7b\"a\": 1\x7d".data) = .ok [] ∧
    jsonLoads ("\x7b\"a\": 1\x7d".data) = some (.obj [("a".data, .num "1".data)]) ∧
    finalCheck (.obj [("a".data, .num "1".data)]) = .error .invalidFormat :=
  ⟨rfl, rfl, rfl, rfl, rfl⟩

/-- C1 (amended): for every non-empty completion text, the gate yields the
empty ParagraphList exactly when the text lacks a `{` character OR lacks the
substring `paragraphs`; when both are present, recovery proceeds to the
direct-parse stage (a successful whole-text parse is handed to the final
validation). -/
theorem narrative_gate_amended (t : List Char) (hne : t.isEmpty = false) :
    ((t.contains '{' = false ∨ containsSub ("paragraphs".data) t = false) →
      recoverParagraphs t = .ok []) ∧
    (t.contains '{' = true → containsSub ("paragraphs".data) t = true →
      ∀ j, jsonLoads t = some j → recoverParagraphs t = finalCheck j) := by
  constructor
  · intro hgate
    have hg : gateNoParagraphs t = true := by
      unfold gateNoParagraphs
      rcases hgate with h1 | h2
      · rw [h1]; simp only [Bool.not_false, Bool.true_or]
      · rw [h2]; simp only [Bool.not_false, Bool.or_true]
    simp [recoverParagraphs, hne, hg]
  · intro hb hp j hj
    have hg : gateNoParagraphs t = false := by
      unfold gateNoParagraphs
      rw [hb, hp]
      decide
    simp [recoverParagraphs, hne, hg, hj]

theorem narrative_gate_amended_witness :
    recoverParagraphs ("hello".data) = .ok [] :=
  (narrative_gate_amended ("hello".data) rfl).1 (Or.inl rfl)

/-! ## Response Recoverer: direct parse and final validation (C3, C4) -/

/-- C3: the completion text `{"paragraphs": []}` parses directly as JSON with
a present, sequence-valued `paragraphs` field, yet the recoverer raises
`InvalidFormatError` instead of returning the empty ParagraphList: line 209's
`not parsed_response.get('paragraphs')` treats the empty list as falsy, so
the "benign empty list" outcome the spec promises for a successful direct
parse is unreachable (the error message "missing paragraphs array" is
contradicted by the field being present). -/
theorem empty_paragraphs_object_raises_invalid_format :
    jsonLoads ("\x7b\"paragraphs\": []\x7d".data) =
      some (.obj [("paragraphs".data, .arr [])]) ∧
    recoverParagraphs ("\x7b\"paragraphs\": []\x7d".data) = .error .invalidFormat :=
  ⟨rfl, rfl⟩

/-- C4 counterexample: the completion text `{"paragraphs": [1]}` parses with
a `paragraphs` field that is a sequence containing a number — not a sequence
of strings — and the recoverer returns it as-is instead of raising
`InvalidFormatError`: line 209 checks `isinstance(..., list)` but never the
element types. -/
theorem numeric_paragraph_list_returned_not_rejected :
    jsonLoads ("\x7b\"paragraphs\": [1]\x7d".data) =
      some (.obj [("paragraphs".data, .arr [.num "1".data])]) ∧
    recoverParagraphs ("\x7b\"paragraphs\": [1]\x7d".data) = .ok [.num "1".data] :=
  ⟨rfl, rfl⟩

/-- Whenever a parse result reaches line 209 — by either route: the direct
whole-text parse, or the reparse of the bracket-repaired extracted
candidate — the recoverer returns exactly what the final validation makes of
it. -/
theorem recoverParagraphs_eq_finalCheck (t : List Char) (j : Json)
    (hne : t.isEmpty = false) (hg : gateNoParagraphs t = false)
    (hj : finalParse t = some j) :
    recoverParagraphs t = finalCheck j := by
  unfold finalParse at hj
  unfold recoverParagraphs
  simp only [hne, hg, Bool.false_eq_true, if_false]
  rcases hd : jsonLoads t with _ | j0
  · rw [hd] at hj
    dsimp only at hj ⊢
    rcases hc : extractCandidate t with _ | cand
    · rw [hc] at hj
      dsimp only at hj
      exact absurd hj (by simp)
    · rw [hc] at hj
      dsimp only at hj ⊢
      rw [hj]
  · rw [hd] at hj
    dsimp only at hj ⊢
    rw [Option.some.inj hj]

/-- C4 (amended): for every completion text whose final parse succeeds — the
text parses directly as JSON, or the bracket-repaired extracted candidate
reparses after the direct parse failed — whenever the parse result has no
non-empty list under `paragraphs` (it is not an object, or the field is
missing, falsy — including the empty list — or not a list), the recoverer
fails (with `InvalidFormatError`, or with the wrapped `AttributeError` a
truthy non-dict parse raises at `.get`) rather than returning the value.
Element types are not checked: a list containing a number passes. -/
theorem final_check_rejects_unusable_paragraphs (t : List Char) (j : Json)
    (hne : t.isEmpty = false)
    (hb : t.contains '{' = true)
    (hp : containsSub ("paragraphs".data) t = true)
    (hj : finalParse t = some j)
    (hbad : ∀ fs xs, j = .obj fs → dictGet fs ("paragraphs".data) = some (.arr xs) → xs = []) :
    recoverParagraphs t = .error .invalidFormat ∨
      recoverParagraphs t = .error .attributeError := by
  have hg : gateNoParagraphs t = false := by
    unfold gateNoParagraphs
    rw [hb, hp]
    decide
  have hrec : recoverParagraphs t = finalCheck j :=
    recoverParagraphs_eq_finalCheck t j hne hg hj
  rw [hrec]
  by_cases ht : pyTruthy j
  · cases j with
    | obj fs =>
      rcases hget : dictGet fs ("paragraphs".data) with _ | v
      · left; simp [finalCheck, ht, hget]
      · by_cases hv : pyTruthy v
        · cases v with
          | arr xs =>
            have hxs : xs = [] := hbad fs xs rfl hget
            subst hxs
            simp [pyTruthy] at hv
          | null => left; simp [finalCheck, ht, hget, hv]
          | bool b => left; simp [finalCheck, ht, hget, hv]
          | num lex => left; simp [finalCheck, ht, hget, hv]
          | str s => left; simp [finalCheck, ht, hget, hv]
          | obj fs2 => left; simp [finalCheck, ht, hget, hv]
        · left; simp [finalCheck, ht, hget, hv]
    | null => right; simp [pyTruthy] at ht
    | bool b => right; simp [finalCheck, ht]
    | num lex => right; simp [finalCheck, ht]
    | str s => right; simp [finalCheck, ht]
    | arr xs => right; simp [finalCheck, ht]
  · left; simp [finalCheck, ht]

theorem final_check_rejects_unusable_paragraphs_witness :
    recoverParagraphs ("```json\n\x7b\"paragraphs\": []\x7d\n```".data) =
        .error .invalidFormat ∨
      recoverParagraphs ("```json\n\x7b\"paragraphs\": []\x7d\n```".data) =
        .error .attributeError := by
  refine final_check_rejects_unusable_paragraphs
    ("```json\n\x7b\"paragraphs\": []\x7d\n```".data)
    (.obj [("paragraphs".data, .arr [])]) rfl rfl rfl rfl ?_
  intro fs xs hfs hget
  cases hfs
  have hv : dictGet [("paragraphs".data, Json.arr [])] ("paragraphs".data)
      = some (.arr []) := rfl
  rw [hv] at hget
  exact (Json.arr.inj (Option.some.inj hget)).symm

/-! ## Response Recoverer: empty completion (C7) -/

/-- C7: whenever the backend call returns a zero-length completion text for a
sub-chunk, `_process_single_chunk` raises the empty-response error (which the
line-214 wrapper re-raises, failing the submission) — the empty completion is
never treated as a zero-paragraph outcome. -/
theorem empty_completion_raises_empty_response
    (backend : List Char → Except String Completion) (bookText : List Char)
    (ci tc si st : Nat) (fr : String)
    (h : backend (buildPrompt si st bookText) = .ok ⟨[], fr⟩) :
    processSingleChunk backend bookText ci tc si st = .error .emptyResponse := by
  simp [processSingleChunk, h, recoverParagraphs]

theorem empty_completion_raises_empty_response_witness :
    processSingleChunk (fun _ => .ok ⟨[], "stop"⟩) ("x".data) 1 1 1 1 =
      .error .emptyResponse :=
  empty_completion_raises_empty_response (fun _ => .ok ⟨[], "stop"⟩) ("x".data)
    1 1 1 1 "stop" rfl

/-! ## Response Recoverer: truncated output (C8) -/

/-- C8: on the truncated completion text `{"paragraphs": ["a","b"` (missing
both closers) the recoverer either repairs to `["a","b"]` or degrades to the
empty ParagraphList, and raises no error.  (The code takes the degradation
branch: with no `]` or `}` present neither extraction pattern can match, so
no candidate reaches the bracket repair, and the non-empty text is treated as
non-narrative content.) -/
theorem truncated_paragraphs_degrades_without_error :
    recoverParagraphs ("\x7b\"paragraphs\": [\"a\",\"b\"".data) =
        .ok [.str "a".data, .str "b".data] ∨
      recoverParagraphs ("\x7b\"paragraphs\": [\"a\",\"b\"".data) = .ok [] :=
  Or.inr rfl

/-! ## Orchestrator lemmas -/

theorem processChunksFrom_ok (backend : List Char → Except String Completion)
    (ci tc st : Nat) :
    ∀ (cs : List (List Char)) (ls : List (List Json)) (start : Nat),
      ls.length = cs.length →
      (∀ i, i < cs.length →
        processSingleChunk backend (cs.getD i []) ci tc (start + i) st = .ok (ls.getD i [])) →
      processChunksFrom backend ci tc st start cs = .ok ls.flatten := by
  intro cs
  induction cs with
  | nil =>
    intro ls start hlen _
    cases ls with
    | nil => rfl
    | cons l ls' => simp at hlen
  | cons c rest ih =>
    intro ls start hlen h
    cases ls with
    | nil => simp at hlen
    | cons l ls' =>
      have h0 := h 0 (by simp)
      simp only [List.getD_cons_zero, Nat.add_zero] at h0
      have hrest : processChunksFrom backend ci tc st (start + 1) rest = .ok ls'.flatten := by
        apply ih ls' (start + 1)
        · simpa using hlen
        · intro i hi
          have hstep := h (i + 1) (by simp only [List.length_cons]; omega)
          simp only [List.getD_cons_succ] at hstep
          have harith : start + (i + 1) = start + 1 + i := by omega
          rwa [harith] at hstep
      simp only [processChunksFrom, h0, hrest, List.flatten_cons]

theorem promptsSent_of_fail (backend : List Char → Except String Completion)
    (ci tc st : Nat) (e : PyErr) :
    ∀ (cs : List (List Char)) (k start : Nat),
      k < cs.length →
      processSingleChunk backend (cs.getD k []) ci tc (start + k) st = .error e →
      (∀ i, i < k →
        ∃ ps, processSingleChunk backend (cs.getD i []) ci tc (start + i) st = .ok ps) →
      processChunksFrom backend ci tc st start cs = .error e ∧
      promptsSent backend ci tc st start cs = promptsFor st start (cs.take (k + 1)) := by
  intro cs
  induction cs with
  | nil => intro k start hk _ _; simp at hk
  | cons c rest ih =>
    intro k start hk hfail hok
    cases k with
    | zero =>
      simp only [List.getD_cons_zero, Nat.add_zero] at hfail
      refine ⟨?_, ?_⟩
      · simp only [processChunksFrom, hfail]
      · simp only [promptsSent, hfail, List.take_succ_cons, List.take_zero, promptsFor]
    | succ k' =>
      obtain ⟨ps, hps⟩ := hok 0 (Nat.succ_pos k')
      simp only [List.getD_cons_zero, Nat.add_zero] at hps
      have hfail' : processSingleChunk backend (rest.getD k' []) ci tc (start + 1 + k') st
          = .error e := by
        have hstep := hfail
        simp only [List.getD_cons_succ] at hstep
        have harith : start + (k' + 1) = start + 1 + k' := by omega
        rwa [harith] at hstep
      have hok' : ∀ i, i < k' →
          ∃ ps', processSingleChunk backend (rest.getD i []) ci tc (start + 1 + i) st
            = .ok ps' := by
        intro i hi
        obtain ⟨ps', hp⟩ := hok (i + 1) (by omega)
        refine ⟨ps', ?_⟩
        simp only [List.getD_cons_succ] at hp
        have harith : start + (i + 1) = start + 1 + i := by omega
        rwa [harith] at hp
      have hk' : k' < rest.length := by
        simp only [List.length_cons] at hk
        omega
      obtain ⟨ih1, ih2⟩ := ih k' (start + 1) hk' hfail' hok'
      refine ⟨?_, ?_⟩
      · simp only [processChunksFrom, hps, ih1]
      · simp only [promptsSent, hps, ih2, List.take_succ_cons, promptsFor]

/-! ## Chunk Orchestrator: order-preserving aggregation (C2) -/

/-- C2: whenever every per-sub-chunk backend call yields a recovered
paragraph list — sub-chunk `i + 1` of the submission yielding `ls.getD i []`
— the orchestrator returns the success aggregate whose `paragraphs` is the
concatenation of those lists in sub-chunk order and whose `total_paragraphs`
is the length of that concatenation. -/
theorem aggregate_concat_of_ok_chunks (apiKey bookText : List Char)
    (backend : List Char → Except String Completion) (ci tc : Nat)
    (ls : List (List Json))
    (hkey : apiKey.isEmpty = false)
    (hlen : ls.length = (chunkBookText bookText 100000).length)
    (h : ∀ i, i < (chunkBookText bookText 100000).length →
      processSingleChunk backend ((chunkBookText bookText 100000).getD i []) ci tc (i + 1)
        (chunkBookText bookText 100000).length = .ok (ls.getD i [])) :
    processBookText apiKey backend bookText ci tc =
      .ok ⟨"success", ls.flatten, ls.flatten.length⟩ := by
  have hmain := processChunksFrom_ok backend ci tc (chunkBookText bookText 100000).length
      (chunkBookText bookText 100000) ls 1 hlen ?_
  · simp only [processBookText, hkey, Bool.false_eq_true, if_false, hmain]
  · intro i hi
    have hstep := h i hi
    have harith : i + 1 = 1 + i := by omega
    rwa [harith] at hstep

theorem aggregate_concat_of_ok_chunks_witness :
    processBookText ("k".data)
      (fun _ => .ok ⟨("\x7b\"paragraphs\": [\"x\",\"y\"]\x7d").data, "stop"⟩)
      ("hi".data) 1 1 =
      .ok ⟨"success", [.str "x".data, .str "y".data], 2⟩ := by
  have h := aggregate_concat_of_ok_chunks ("k".data) ("hi".data)
      (fun _ => .ok ⟨("\x7b\"paragraphs\": [\"x\",\"y\"]\x7d").data, "stop"⟩) 1 1
      [[.str "x".data, .str "y".data]] rfl rfl ?_
  · exact h
  · intro i hi
    have hlen1 : (chunkBookText ("hi".data) 100000).length = 1 := rfl
    rw [hlen1] at hi
    interval_cases i
    rfl

/-! ## Chunk Orchestrator: fail-fast propagation (C9) -/

/-- C9: if the sub-chunk at 0-based position `k` fails — its backend call
raises `BackendError`, or its recovery raises (`EmptyResponseError`,
`InvalidFormatError`, ...) — while every earlier sub-chunk succeeds, then the
orchestrator propagates exactly that error, and the prompts it sends to the
backend are precisely those of sub-chunks `1 .. k+1`: no sub-chunk after the
failing one is ever invoked. -/
theorem fail_fast_aborts_remaining_chunks (apiKey bookText : List Char)
    (backend : List Char → Except String Completion) (ci tc k : Nat) (e : PyErr)
    (hkey : apiKey.isEmpty = false)
    (hk : k < (chunkBookText bookText 100000).length)
    (hfail : processSingleChunk backend ((chunkBookText bookText 100000).getD k []) ci tc
      (k + 1) (chunkBookText bookText 100000).length = .error e)
    (hok : ∀ i, i < k →
      ∃ ps, processSingleChunk backend ((chunkBookText bookText 100000).getD i []) ci tc
        (i + 1) (chunkBookText bookText 100000).length = .ok ps) :
    processBookText apiKey backend bookText ci tc = .error e ∧
    backendCalls apiKey backend bookText ci tc =
      promptsFor (chunkBookText bookText 100000).length 1
        ((chunkBookText bookText 100000).take (k + 1)) := by
  have hmain := promptsSent_of_fail backend ci tc (chunkBookText bookText 100000).length e
      (chunkBookText bookText 100000) k 1 hk ?_ ?_
  · refine ⟨?_, ?_⟩
    · simp only [processBookText, hkey, Bool.false_eq_true, if_false, hmain.1]
    · simp only [backendCalls, hkey, Bool.false_eq_true, if_false, hmain.2]
  · have harith : 1 + k = k + 1 := by omega
    rwa [harith]
  · intro i hi
    obtain ⟨ps, hp⟩ := hok i hi
    refine ⟨ps, ?_⟩
    have harith : 1 + i = i + 1 := by omega
    rwa [harith]

theorem fail_fast_aborts_remaining_chunks_witness :
    processBookText ("k".data) (fun _ => .error "boom") ("hi".data) 1 1 =
        .error .backendError ∧
    backendCalls ("k".data) (fun _ => .error "boom") ("hi".data) 1 1 =
      promptsFor (chunkBookText ("hi".data) 100000).length 1
        ((chunkBookText ("hi".data) 100000).take 1) :=
  fail_fast_aborts_remaining_chunks ("k".data) ("hi".data) (fun _ => .error "boom")
    1 1 0 .backendError rfl (by decide) rfl
    (fun i hi => absurd hi (Nat.not_lt_zero i))

/-! ## Chunk Orchestrator: position-argument noninterference (C10) -/

theorem processSingleChunk_position_blind (backend : List Char → Except String Completion)
    (c : List Char) (ci tc ci' tc' si st : Nat) :
    processSingleChunk backend c ci tc si st = processSingleChunk backend c ci' tc' si st :=
  rfl

theorem processChunksFrom_position_blind (backend : List Char → Except String Completion)
    (ci tc ci' tc' st : Nat) :
    ∀ (cs : List (List Char)) (start : Nat),
      processChunksFrom backend ci tc st start cs
        = processChunksFrom backend ci' tc' st start cs := by
  intro cs
  induction cs with
  | nil => intro start; rfl
  | cons c rest ih =>
    intro start
    simp only [processChunksFrom,
      processSingleChunk_position_blind backend c ci tc ci' tc' start st, ih]

theorem promptsSent_position_blind (backend : List Char → Except String Completion)
    (ci tc ci' tc' st : Nat) :
    ∀ (cs : List (List Char)) (start : Nat),
      promptsSent backend ci tc st start cs = promptsSent backend ci' tc' st start cs := by
  intro cs
  induction cs with
  | nil => intro start; rfl
  | cons c rest ih =>
    intro start
    simp only [promptsSent,
      processSingleChunk_position_blind backend c ci tc ci' tc' start st, ih]

/-- C10: for every book text, API key and fixed backend behaviour,
`process_book_text` returns the same result for all values of its
`chunk_index`/`total_chunks` arguments, and sends the backend the very same
prompts (which embed only `sub_index`/`sub_total`): two-run noninterference
in the submission-position arguments. -/
theorem chunk_position_noninterference (apiKey bookText : List Char)
    (backend : List Char → Except String Completion) (ci tc ci' tc' : Nat) :
    processBookText apiKey backend bookText ci tc
      = processBookText apiKey backend bookText ci' tc' ∧
    backendCalls apiKey backend bookText ci tc
      = backendCalls apiKey backend bookText ci' tc' := by
  refine ⟨?_, ?_⟩
  · simp only [processBookText,
      processChunksFrom_position_blind backend ci tc ci' tc']
  · simp only [backendCalls,
      promptsSent_position_blind backend ci tc ci' tc']

end BookByte
